import Mathlib

/-!
Verification of the Modbus RTU codec (`src/ModubusRtu.ts`).

The codec is shallowly embedded over `List Nat` buffers: each Node.js
`Buffer` read/write helper is modelled together with its range validation
(out-of-range offsets or values raise a `RangeError` in Node, modelled as
`ModbusError.rangeError` for reads and `Option.none` for writes).
Machine integers are `Nat`; JavaScript's 32-bit bitwise operators coincide
with `Nat` bitwise operators on the values that occur here (all < 2^17).
-/

set_option maxRecDepth 8000

namespace ModbusRtuVerify

/-- The fixed exception-message table from the top of the source file. -/
def modbusErrorMessages : List String :=
  ["Unknown error", "Illegal function", "Illegal data address", "Illegal data value",
   "Slave device failure", "Acknowledge", "Slave device busy", "Memory Parity Error"]

/-- `modbusErrorMessages[errorCode] || 'Unknown error'` — a JS string is falsy
exactly when it is empty, and an out-of-range index yields `undefined` (falsy). -/
def modbusErrorMessage (errorCode : Nat) : String :=
  match modbusErrorMessages.get? errorCode with
  | some s => if s = "" then "Unknown error" else s
  | none => "Unknown error"

/-- The codec instance: immutable unit address captured at construction. -/
structure ModbusRtu where
  unitAddress : Nat

/-- One iteration of the inner `for (j = 0; j < 8; j++)` loop of `crc16`:
`odd = crc & 0x0001; crc = crc >> 1; if (odd) crc = crc ^ 0xa001;`. -/
def crc16InnerRound (crc : Nat) : Nat :=
  let odd := crc &&& 0x0001
  let shifted := crc >>> 1
  if odd ≠ 0 then shifted ^^^ 0xa001 else shifted

/-- One iteration of the outer loop of `crc16`: XOR the byte in, then run the
inner loop eight times. -/
def crc16ProcessByte (crc b : Nat) : Nat :=
  (List.range 8).foldl (fun c _ => crc16InnerRound c) (crc ^^^ b)

/-- `ModbusRtu.crc16`, translated from the source: accumulator starts at
`0xffff` and every buffer byte is processed in order. -/
def crc16 (buffer : List Nat) : Nat :=
  buffer.foldl crc16ProcessByte 0xffff

/-- Modelled from the spec (§4.1) for the refinement claim: "if the low bit of
the accumulator is set, right-shift the accumulator by one bit and XOR with
polynomial 0xA001; otherwise just right-shift by one bit". -/
def crc16SpecStep (acc : Nat) : Nat :=
  if acc % 2 = 1 then (acc / 2) ^^^ 0xa001 else acc / 2

/-- Modelled from the spec (§4.1): "for each input byte, XOR it into the low
byte of the accumulator, then perform 8 iterations". -/
def crc16SpecAux : Nat → List Nat → Nat
  | acc, [] => acc
  | acc, b :: rest => crc16SpecAux (crc16SpecStep^[8] (acc ^^^ b)) rest

/-- Modelled from the spec (§4.1): "initialize accumulator to 0xFFFF; ...
Return the final 16-bit accumulator". -/
def crc16Spec (bytes : List Nat) : Nat :=
  crc16SpecAux 0xffff bytes

lemma foldl_const_eq_iterate {α : Type} (f : Nat → Nat) :
    ∀ (l : List α) (x : Nat), l.foldl (fun c _ => f c) x = f^[l.length] x
  | [], _ => rfl
  | _ :: l, x => by
    rw [List.foldl_cons, foldl_const_eq_iterate f l, List.length_cons,
      Function.iterate_succ_apply]

lemma crc16InnerRound_eq_specStep : crc16InnerRound = crc16SpecStep := by
  funext c
  unfold crc16InnerRound crc16SpecStep
  rw [Nat.and_one_is_mod, Nat.shiftRight_one]
  rcases Nat.mod_two_eq_zero_or_one c with h | h <;> simp [h]

lemma crc16ProcessByte_eq (c b : Nat) :
    crc16ProcessByte c b = crc16SpecStep^[8] (c ^^^ b) := by
  unfold crc16ProcessByte
  rw [foldl_const_eq_iterate, List.length_range, crc16InnerRound_eq_specStep]

lemma crc16_foldl_eq_specAux : ∀ (l : List Nat) (acc : Nat),
    l.foldl crc16ProcessByte acc = crc16SpecAux acc l
  | [], _ => rfl
  | b :: rest, acc => by
    rw [List.foldl_cons, crc16_foldl_eq_specAux rest, crc16ProcessByte_eq]
    rfl

/-- C1: `crc16` computes the standard Modbus CRC-16 as described in the spec,
and on the documented test vector `[0x01, 0x03, 0x00, 0x00, 0x00, 0x0A]` it
returns the well-known value `0xCDC5` (wire bytes `C5 CD`). -/
theorem crc16_matches_reference :
    (∀ bytes : List Nat, crc16 bytes = crc16Spec bytes) ∧
    crc16 [0x01, 0x03, 0x00, 0x00, 0x00, 0x0A] = 0xCDC5 := by
  constructor
  · intro bytes
    exact crc16_foldl_eq_specAux bytes 0xffff
  · decide

/-- Error taxonomy of the validator, plus the Node.js-level `RangeError` that
buffer reads and writes at invalid offsets/values raise. -/
inductive ModbusError where
  | crcMismatch : ModbusError
  | unitAddressMismatch (expected actual : Nat) : ModbusError
  | modbusException (errorCode : Nat) (message : String) : ModbusError
  | functionCodeMismatch (expected actual : Nat) : ModbusError
  | rangeError : ModbusError
deriving DecidableEq

/-- `Buffer.prototype.writeUInt8`: value must satisfy `0 <= value <= 0xff`,
otherwise Node raises `ERR_OUT_OF_RANGE`. Returns the byte written. -/
def writeUInt8b (value : Nat) : Option (List Nat) :=
  if value ≤ 0xff then some [value] else none

/-- `Buffer.prototype.writeUInt16BE`: value must satisfy `0 <= value <= 0xffff`,
otherwise Node raises `ERR_OUT_OF_RANGE`. Returns the two bytes written,
most significant first. -/
def writeUInt16BEb (value : Int) : Option (List Nat) :=
  if 0 ≤ value ∧ value ≤ 0xffff then some [value.toNat / 256, value.toNat % 256] else none

/-- `Buffer.prototype.writeUInt16LE`: as `writeUInt16BEb` but least significant
byte first. -/
def writeUInt16LEb (value : Int) : Option (List Nat) :=
  if 0 ≤ value ∧ value ≤ 0xffff then some [value.toNat % 256, value.toNat / 256] else none

/-- `Buffer.prototype.readUInt8` at a natural-number offset (all call sites
with a nonnegative offset); out-of-bounds raises `RangeError`. -/
def readUInt8x (buf : List Nat) (offset : Nat) : Except ModbusError Nat :=
  if offset + 1 ≤ buf.length then .ok (buf.getD offset 0) else .error .rangeError

/-- `Buffer.prototype.readUInt16BE` at a natural-number offset. -/
def readUInt16BEx (buf : List Nat) (offset : Nat) : Except ModbusError Nat :=
  if offset + 2 ≤ buf.length then .ok (256 * buf.getD offset 0 + buf.getD (offset + 1) 0)
  else .error .rangeError

/-- `Buffer.prototype.readUInt16LE` at an integer offset (the one call site
passes `response.length - 2`, which is negative for short buffers and then
raises `RangeError`). -/
def readUInt16LEx (buf : List Nat) (offset : Int) : Except ModbusError Nat :=
  if 0 ≤ offset ∧ offset + 2 ≤ (buf.length : Int) then
    .ok (buf.getD offset.toNat 0 + 256 * buf.getD (offset.toNat + 1) 0)
  else .error .rangeError

/-- `buffer.subarray(0, -2)`: all bytes but the last two (clamped at zero for
buffers shorter than two bytes). -/
def bodyOf (buf : List Nat) : List Nat :=
  buf.take (buf.length - 2)

/-- `ModbusRtu.requestHoldingRegisters`, translated from the source: build the
six-byte header with the sequence of checked buffer writes, then append the
CRC of the first six bytes little-endian. `none` models a thrown
`RangeError` from any write. -/
def requestHoldingRegisters (m : ModbusRtu) (firstRegister lastRegister : Nat) :
    Option (List Nat) := do
  let length : Int := (lastRegister : Int) - (firstRegister : Int) + 1
  let b0 ← writeUInt8b m.unitAddress
  let b1 ← writeUInt8b 0x03
  let b23 ← writeUInt16BEb (firstRegister : Int)
  let b45 ← writeUInt16BEb length
  let header := b0 ++ b1 ++ b23 ++ b45
  let bcrc ← writeUInt16LEb (crc16 (bodyOf (header ++ [0, 0])) : Nat)
  return header ++ bcrc

/-- `ModbusRtu.validateResponse`, translated from the source: checksum check,
unit-address check, exception check, function-code check, in that order,
stopping at the first failure. -/
def validateResponse (m : ModbusRtu) (functionCode : Nat) (response : List Nat) :
    Except ModbusError Unit :=
  match readUInt16LEx response ((response.length : Int) - 2) with
  | .error e => .error e
  | .ok crc =>
    if crc ≠ crc16 (bodyOf response) then .error .crcMismatch
    else match readUInt8x response 0 with
      | .error e => .error e
      | .ok addr =>
        if m.unitAddress ≠ addr then .error (.unitAddressMismatch m.unitAddress addr)
        else match readUInt8x response 1 with
          | .error e => .error e
          | .ok code =>
            if 5 ≤ response.length ∧ code = (0x80 ||| functionCode) then
              match readUInt8x response 2 with
              | .error e => .error e
              | .ok errorCode =>
                .error (.modbusException errorCode (modbusErrorMessage errorCode))
            else if code ≠ functionCode then
              .error (.functionCodeMismatch functionCode code)
            else .ok ()

/-- The `for (let i = 0; i < length; i += 2)` decode loop of
`fetchHoldingRegisters`: read a big-endian register at offset `i + 3` and push
it onto the accumulator. -/
def fetchLoop (response : List Nat) (length i : Nat) (acc : List Nat) :
    Except ModbusError (List Nat) :=
  if h : i < length then
    match readUInt16BEx response (i + 3) with
    | .error e => .error e
    | .ok reg => fetchLoop response length (i + 2) (acc ++ [reg])
  else .ok acc
termination_by length - i
decreasing_by omega

/-- `ModbusRtu.fetchHoldingRegisters`, translated from the source: validate,
read the byte count at offset 2, then decode registers. -/
def fetchHoldingRegisters (m : ModbusRtu) (response : List Nat) :
    Except ModbusError (List Nat) :=
  match validateResponse m 0x03 response with
  | .error e => .error e
  | .ok _ =>
    match readUInt8x response 2 with
    | .error e => .error e
    | .ok length => fetchLoop response length 0 []

lemma shiftRight_xor_distrib (a b : Nat) : (a ^^^ b) >>> 1 = (a >>> 1) ^^^ (b >>> 1) := by
  apply Nat.eq_of_testBit_eq
  intro i
  simp [Nat.testBit_shiftRight, Nat.testBit_xor]

lemma xor_xor_cancel_right (x y a : Nat) : (x ^^^ a) ^^^ (y ^^^ a) = x ^^^ y := by
  apply Nat.eq_of_testBit_eq
  intro i
  simp only [Nat.testBit_xor]
  cases x.testBit i <;> cases y.testBit i <;> cases a.testBit i <;> rfl

lemma nat_xor_left_comm (a b c : Nat) : a ^^^ (b ^^^ c) = b ^^^ (a ^^^ c) := by
  rw [← Nat.xor_assoc, Nat.xor_comm a b, Nat.xor_assoc]

lemma crc16InnerRound_lt (c : Nat) (hc : c < 65536) : crc16InnerRound c < 65536 := by
  unfold crc16InnerRound
  simp only [Nat.shiftRight_one]
  split
  · have h1 : c / 2 < 2 ^ 16 := by omega
    have h2 : (0xa001 : Nat) < 2 ^ 16 := by norm_num
    have := Nat.xor_lt_two_pow h1 h2
    simpa using this
  · omega

lemma crc16InnerRound_ne_zero (c : Nat) (hc : c < 65536) (h0 : c ≠ 0) :
    crc16InnerRound c ≠ 0 := by
  unfold crc16InnerRound
  simp only [Nat.and_one_is_mod, Nat.shiftRight_one]
  rcases Nat.mod_two_eq_zero_or_one c with h | h
  · simp only [h]
    simp
    omega
  · rw [h, if_pos (by norm_num : ¬(1 : Nat) = 0)]
    intro hx
    rw [Nat.xor_eq_zero] at hx
    omega

lemma crc16InnerRound_linear (a b : Nat) :
    crc16InnerRound (a ^^^ b) = crc16InnerRound a ^^^ crc16InnerRound b := by
  unfold crc16InnerRound
  simp only [Nat.and_one_is_mod]
  have hab : (a ^^^ b) % 2 = (a % 2 + b % 2) % 2 := by
    rw [Nat.xor_mod_two_eq, Nat.add_mod]
  have hsr : (a ^^^ b) >>> 1 = (a >>> 1) ^^^ (b >>> 1) := shiftRight_xor_distrib a b
  rcases Nat.mod_two_eq_zero_or_one a with ha | ha <;>
    rcases Nat.mod_two_eq_zero_or_one b with hb | hb <;>
    rw [ha, hb] at hab <;> norm_num at hab <;>
    simp [ha, hb, hab, hsr, xor_xor_cancel_right, Nat.xor_assoc, nat_xor_left_comm,
      Nat.xor_comm]

lemma crc16InnerRound_iterate_lt (n c : Nat) (hc : c < 65536) :
    crc16InnerRound^[n] c < 65536 := by
  induction n with
  | zero => simpa using hc
  | succ k ih =>
    rw [Function.iterate_succ_apply']
    exact crc16InnerRound_lt _ ih

lemma crc16InnerRound_iterate_ne_zero (n c : Nat) (hc : c < 65536) (h0 : c ≠ 0) :
    crc16InnerRound^[n] c ≠ 0 := by
  induction n with
  | zero => simpa using h0
  | succ k ih =>
    rw [Function.iterate_succ_apply']
    exact crc16InnerRound_ne_zero _ (crc16InnerRound_iterate_lt k c hc) ih

lemma crc16InnerRound_iterate_linear (n a b : Nat) :
    crc16InnerRound^[n] (a ^^^ b) = crc16InnerRound^[n] a ^^^ crc16InnerRound^[n] b := by
  induction n with
  | zero => simp
  | succ k ih =>
    rw [Function.iterate_succ_apply', Function.iterate_succ_apply',
      Function.iterate_succ_apply', ih, crc16InnerRound_linear]

lemma crc16ProcessByte_eq_iterate (c b : Nat) :
    crc16ProcessByte c b = crc16InnerRound^[8] (c ^^^ b) := by
  unfold crc16ProcessByte
  rw [foldl_const_eq_iterate, List.length_range]

lemma crc16ProcessByte_lt (c b : Nat) (hc : c < 65536) (hb : b < 65536) :
    crc16ProcessByte c b < 65536 := by
  rw [crc16ProcessByte_eq_iterate]
  apply crc16InnerRound_iterate_lt
  have h1 : c < 2 ^ 16 := by omega
  have h2 : b < 2 ^ 16 := by omega
  have := Nat.xor_lt_two_pow h1 h2
  omega

lemma crc16_foldl_lt : ∀ (l : List Nat) (s : Nat), s < 65536 → (∀ x ∈ l, x < 65536) →
    l.foldl crc16ProcessByte s < 65536
  | [], s, hs, _ => hs
  | b :: rest, s, hs, hl => by
    rw [List.foldl_cons]
    exact crc16_foldl_lt rest _
      (crc16ProcessByte_lt s b hs (hl b (List.mem_cons_self b rest)))
      (fun x hx => hl x (List.mem_cons_of_mem b hx))

lemma crc16_lt (buffer : List Nat) (hb : ∀ x ∈ buffer, x < 65536) :
    crc16 buffer < 65536 :=
  crc16_foldl_lt buffer 0xffff (by norm_num) hb

/-- C10: on byte sequences, `crc16` always returns a value in `[0, 0xFFFF]`,
so the 16-bit little-endian write that stores it never truncates or faults. -/
theorem crc16_fits_16_bits (buffer : List Nat) (hb : ∀ b ∈ buffer, b < 256) :
    crc16 buffer ≤ 0xFFFF := by
  have h := crc16_lt buffer (fun x hx => lt_trans (hb x hx) (by norm_num))
  omega

/-- Witness for C10 at the documented test vector. -/
theorem crc16_fits_16_bits_witness :
    crc16 [0x01, 0x03, 0x00, 0x00, 0x00, 0x0A] ≤ 0xFFFF :=
  crc16_fits_16_bits [0x01, 0x03, 0x00, 0x00, 0x00, 0x0A] (by decide)

lemma xor_lt_65536 (a b : Nat) (ha : a < 65536) (hb : b < 65536) : a ^^^ b < 65536 := by
  have h1 : a < 2 ^ 16 := by omega
  have h2 : b < 2 ^ 16 := by omega
  have := Nat.xor_lt_two_pow h1 h2
  omega

lemma crc16ProcessByte_ne (s1 b1 s2 b2 : Nat) (hlt1 : s1 ^^^ b1 < 65536)
    (hlt2 : s2 ^^^ b2 < 65536) (hne : s1 ^^^ b1 ≠ s2 ^^^ b2) :
    crc16ProcessByte s1 b1 ≠ crc16ProcessByte s2 b2 := by
  intro heq
  have hx : crc16InnerRound^[8] ((s1 ^^^ b1) ^^^ (s2 ^^^ b2)) = 0 := by
    rw [crc16InnerRound_iterate_linear, ← crc16ProcessByte_eq_iterate,
      ← crc16ProcessByte_eq_iterate, heq, Nat.xor_self]
  have hlt : (s1 ^^^ b1) ^^^ (s2 ^^^ b2) < 65536 := xor_lt_65536 _ _ hlt1 hlt2
  have hnz : (s1 ^^^ b1) ^^^ (s2 ^^^ b2) ≠ 0 := by
    rw [ne_eq, Nat.xor_eq_zero]
    exact hne
  exact crc16InnerRound_iterate_ne_zero 8 _ hlt hnz hx

lemma crc16_foldl_state_injective : ∀ (l : List Nat) (s1 s2 : Nat), s1 < 65536 →
    s2 < 65536 → s1 ≠ s2 → (∀ x ∈ l, x < 256) →
    l.foldl crc16ProcessByte s1 ≠ l.foldl crc16ProcessByte s2
  | [], _, _, _, _, hne, _ => by simpa using hne
  | b :: rest, s1, s2, h1, h2, hne, hl => by
    rw [List.foldl_cons, List.foldl_cons]
    have hb : b < 65536 := lt_trans (hl b (List.mem_cons_self b rest)) (by norm_num)
    apply crc16_foldl_state_injective rest _ _
      (crc16ProcessByte_lt s1 b h1 hb) (crc16ProcessByte_lt s2 b h2 hb)
    · apply crc16ProcessByte_ne _ _ _ _ (xor_lt_65536 _ _ h1 hb) (xor_lt_65536 _ _ h2 hb)
      intro h
      apply hne
      have h0 : (s1 ^^^ b) ^^^ (s2 ^^^ b) = 0 := by rw [h, Nat.xor_self]
      rwa [xor_xor_cancel_right, Nat.xor_eq_zero] at h0
    · exact fun x hx => hl x (List.mem_cons_of_mem b hx)

lemma crc16_foldl_set_ne : ∀ (l : List Nat) (p : Nat) (v s : Nat), p < l.length →
    (∀ x ∈ l, x < 256) → v < 256 → v ≠ l.getD p 0 → s < 65536 →
    (l.set p v).foldl crc16ProcessByte s ≠ l.foldl crc16ProcessByte s
  | [], p, _, _, hp, _, _, _, _ => by simp at hp
  | a :: rest, 0, v, s, _, hl, hv, hne, hs => by
    rw [List.set_cons_zero, List.foldl_cons, List.foldl_cons]
    have ha : a < 256 := hl a (List.mem_cons_self a rest)
    have ha6 : a < 65536 := by omega
    have hv6 : v < 65536 := by omega
    apply crc16_foldl_state_injective rest _ _
      (crc16ProcessByte_lt s v hs hv6) (crc16ProcessByte_lt s a hs ha6)
    · apply crc16ProcessByte_ne _ _ _ _ (xor_lt_65536 _ _ hs hv6) (xor_lt_65536 _ _ hs ha6)
      intro h
      apply hne
      have h0 : (s ^^^ v) ^^^ (s ^^^ a) = 0 := by rw [h, Nat.xor_self]
      rw [Nat.xor_comm s v, Nat.xor_comm s a, xor_xor_cancel_right, Nat.xor_eq_zero] at h0
      simpa using h0
    · exact fun x hx => hl x (List.mem_cons_of_mem a hx)
  | a :: rest, p + 1, v, s, hp, hl, hv, hne, hs => by
    rw [List.set_cons_succ, List.foldl_cons, List.foldl_cons]
    have ha : a < 256 := hl a (List.mem_cons_self a rest)
    apply crc16_foldl_set_ne rest p v _ (by simpa using hp)
      (fun x hx => hl x (List.mem_cons_of_mem a hx)) hv (by simpa using hne)
      (crc16ProcessByte_lt s a hs (by omega))

lemma crc16_set_ne (l : List Nat) (p v : Nat) (hp : p < l.length)
    (hl : ∀ x ∈ l, x < 256) (hv : v < 256) (hne : v ≠ l.getD p 0) :
    crc16 (l.set p v) ≠ crc16 l :=
  crc16_foldl_set_ne l p v 0xffff hp hl hv hne (by norm_num)

lemma readUInt16LE_last (buf : List Nat) (h : 2 ≤ buf.length) :
    readUInt16LEx buf ((buf.length : Int) - 2) =
      .ok (buf.getD (buf.length - 2) 0 + 256 * buf.getD (buf.length - 1) 0) := by
  unfold readUInt16LEx
  rw [if_pos (by constructor <;> omega)]
  have h2 : ((buf.length : Int) - 2).toNat = buf.length - 2 := by omega
  have h3 : buf.length - 2 + 1 = buf.length - 1 := by omega
  rw [h2, h3]

lemma fetch_of_bad_crc (m : ModbusRtu) (resp : List Nat) (s : Nat)
    (hread : readUInt16LEx resp ((resp.length : Int) - 2) = .ok s)
    (hne : s ≠ crc16 (bodyOf resp)) :
    fetchHoldingRegisters m resp = .error .crcMismatch := by
  unfold fetchHoldingRegisters validateResponse
  rw [hread]
  simp [hne]

/-- C6: starting from any response whose trailing two bytes hold the correct
little-endian CRC of the rest, overwriting any single byte with a different
byte value (without re-deriving the checksum) makes `fetchHoldingRegisters`
fail with the CRC-mismatch error. -/
theorem single_byte_mutation_fails_crc (m : ModbusRtu) (frame : List Nat) (p v : Nat)
    (hbytes : ∀ x ∈ frame, x < 256) (hlen : 2 ≤ frame.length)
    (hvalid : frame.getD (frame.length - 2) 0 + 256 * frame.getD (frame.length - 1) 0
      = crc16 (bodyOf frame))
    (hp : p < frame.length) (hv : v < 256) (hne : v ≠ frame.getD p 0) :
    fetchHoldingRegisters m (frame.set p v) = .error .crcMismatch := by
  have hlen' : (frame.set p v).length = frame.length := by simp
  apply fetch_of_bad_crc m _ _ (readUInt16LE_last _ (by rw [hlen']; omega))
  rw [hlen']
  by_cases hcase : p < frame.length - 2
  · have hbody : bodyOf (frame.set p v) = (bodyOf frame).set p v := by
      unfold bodyOf
      rw [hlen', List.set_take]
    have e2 : (frame.set p v).getD (frame.length - 2) 0 = frame.getD (frame.length - 2) 0 := by
      simp only [List.getD_eq_getElem?_getD]
      rw [List.getElem?_set_ne (by omega : p ≠ frame.length - 2)]
    have e1 : (frame.set p v).getD (frame.length - 1) 0 = frame.getD (frame.length - 1) 0 := by
      simp only [List.getD_eq_getElem?_getD]
      rw [List.getElem?_set_ne (by omega : p ≠ frame.length - 1)]
    rw [e2, e1, hvalid, hbody]
    have hblen : p < (bodyOf frame).length := by
      unfold bodyOf
      simp only [List.length_take]
      omega
    apply Ne.symm
    apply crc16_set_ne _ p v hblen
    · exact fun x hx => hbytes x (List.mem_of_mem_take hx)
    · exact hv
    · unfold bodyOf
      simp only [List.getD_eq_getElem?_getD]
      rw [List.getElem?_take_of_lt hcase]
      simpa [List.getD_eq_getElem?_getD] using hne
  · have hbody : bodyOf (frame.set p v) = bodyOf frame := by
      unfold bodyOf
      rw [hlen', List.set_take, List.set_eq_of_length_le]
      simp only [List.length_take]
      omega
    rw [hbody, ← hvalid]
    have hp2 : p = frame.length - 2 ∨ p = frame.length - 1 := by omega
    rcases hp2 with h | h
    · subst h
      have e2 : (frame.set (frame.length - 2) v).getD (frame.length - 2) 0 = v := by
        simp only [List.getD_eq_getElem?_getD]
        rw [List.getElem?_set_self (by omega)]
        rfl
      have e1 : (frame.set (frame.length - 2) v).getD (frame.length - 1) 0
          = frame.getD (frame.length - 1) 0 := by
        simp only [List.getD_eq_getElem?_getD]
        rw [List.getElem?_set_ne (by omega : frame.length - 2 ≠ frame.length - 1)]
      rw [e2, e1]
      have hne' : v ≠ frame.getD (frame.length - 2) 0 := hne
      omega
    · subst h
      have e2 : (frame.set (frame.length - 1) v).getD (frame.length - 2) 0
          = frame.getD (frame.length - 2) 0 := by
        simp only [List.getD_eq_getElem?_getD]
        rw [List.getElem?_set_ne (by omega : frame.length - 1 ≠ frame.length - 2)]
      have e1 : (frame.set (frame.length - 1) v).getD (frame.length - 1) 0 = v := by
        simp only [List.getD_eq_getElem?_getD]
        rw [List.getElem?_set_self (by omega)]
        rfl
      rw [e2, e1]
      have hne' : v ≠ frame.getD (frame.length - 1) 0 := hne
      omega

/-- Witness for C6: flipping the function-code byte of a concrete valid
response is caught by the checksum check. -/
theorem single_byte_mutation_fails_crc_witness :
    fetchHoldingRegisters ⟨1⟩ ([1, 3, 2, 0, 10, 56, 67].set 1 4) = .error .crcMismatch :=
  single_byte_mutation_fails_crc ⟨1⟩ [1, 3, 2, 0, 10, 56, 67] 1 4
    (by decide) (by decide) (by decide) (by decide) (by decide) (by decide)

lemma readUInt8_ok (buf : List Nat) (offset : Nat) (h : offset + 1 ≤ buf.length) :
    readUInt8x buf offset = .ok (buf.getD offset 0) := by
  unfold readUInt8x
  rw [if_pos h]

lemma fetch_short_range_error (m : ModbusRtu) (resp : List Nat) (h : resp.length < 2) :
    fetchHoldingRegisters m resp = .error .rangeError := by
  have hread : readUInt16LEx resp ((resp.length : Int) - 2) = .error .rangeError := by
    unfold readUInt16LEx
    rw [if_neg (by omega)]
  unfold fetchHoldingRegisters validateResponse
  rw [hread]

/-- C9: a buffer shorter than two bytes makes `fetchHoldingRegisters` fail with
the Node-level `RangeError` (negative checksum offset), which is none of the
four taxonomy errors; conversely any non-`RangeError` failure implies the
buffer had at least two bytes. -/
theorem short_buffer_range_error :
    (∀ (m : ModbusRtu) (resp : List Nat), resp.length < 2 →
      fetchHoldingRegisters m resp = .error .rangeError) ∧
    (∀ (m : ModbusRtu) (resp : List Nat) (e : ModbusError),
      fetchHoldingRegisters m resp = .error e → e ≠ .rangeError → 2 ≤ resp.length) := by
  constructor
  · exact fun m resp h => fetch_short_range_error m resp h
  · intro m resp e hres hne
    by_contra hlt
    rw [fetch_short_range_error m resp (by omega)] at hres
    exact hne (Except.error.inj hres).symm

/-- Witness for C9 on the empty buffer and a non-range failure. -/
theorem short_buffer_range_error_witness :
    fetchHoldingRegisters ⟨1⟩ [] = .error .rangeError ∧
    (fetchHoldingRegisters ⟨1⟩ [1, 3, 2, 0, 10, 56, 68] = .error .crcMismatch →
      ModbusError.crcMismatch ≠ ModbusError.rangeError →
      2 ≤ [1, 3, 2, 0, 10, 56, 68].length) :=
  ⟨short_buffer_range_error.1 ⟨1⟩ [] (by decide),
   short_buffer_range_error.2 ⟨1⟩ [1, 3, 2, 0, 10, 56, 68] .crcMismatch⟩

lemma fetch_of_addr_mismatch (m : ModbusRtu) (resp : List Nat) (hlen : 2 ≤ resp.length)
    (hcrc : resp.getD (resp.length - 2) 0 + 256 * resp.getD (resp.length - 1) 0
      = crc16 (bodyOf resp))
    (hne : m.unitAddress ≠ resp.getD 0 0) :
    fetchHoldingRegisters m resp
      = .error (.unitAddressMismatch m.unitAddress (resp.getD 0 0)) := by
  unfold fetchHoldingRegisters validateResponse
  rw [readUInt16LE_last resp hlen, hcrc, readUInt8_ok resp 0 (by omega)]
  have hne' : ¬ m.unitAddress = resp[0]?.getD 0 := by simpa using hne
  simp [hne']

lemma fetch_of_exception (m : ModbusRtu) (resp : List Nat) (e : Nat)
    (hlen : 5 ≤ resp.length)
    (hcrc : resp.getD (resp.length - 2) 0 + 256 * resp.getD (resp.length - 1) 0
      = crc16 (bodyOf resp))
    (haddr : resp.getD 0 0 = m.unitAddress)
    (hfc : resp.getD 1 0 = 0x83)
    (hexc : resp.getD 2 0 = e) :
    fetchHoldingRegisters m resp = .error (.modbusException e (modbusErrorMessage e)) := by
  unfold fetchHoldingRegisters validateResponse
  rw [readUInt16LE_last resp (by omega), hcrc, readUInt8_ok resp 0 (by omega),
    readUInt8_ok resp 1 (by omega), readUInt8_ok resp 2 (by omega), haddr, hfc, hexc]
  have hcond : 5 ≤ resp.length ∧ (0x83 : Nat) = 0x80 ||| 0x03 := ⟨hlen, by decide⟩
  simp [hcond.2, hlen]

/-- C4: the validator checks in strict order — a readable frame whose stored
checksum differs from the recomputed one fails with `CrcMismatch` whatever the
rest of the frame holds; with a valid checksum, a unit address mismatch is
reported before the function-code byte is ever interpreted; and with checksum
and address both good, the exception flag `0x83` is reported as
`ModbusException` rather than as a function-code mismatch. -/
theorem validation_order_contract :
    (∀ (m : ModbusRtu) (resp : List Nat) (s : Nat),
      readUInt16LEx resp ((resp.length : Int) - 2) = .ok s →
      s ≠ crc16 (bodyOf resp) →
      fetchHoldingRegisters m resp = .error .crcMismatch) ∧
    (∀ (m : ModbusRtu) (resp : List Nat), 2 ≤ resp.length →
      resp.getD (resp.length - 2) 0 + 256 * resp.getD (resp.length - 1) 0
        = crc16 (bodyOf resp) →
      m.unitAddress ≠ resp.getD 0 0 →
      fetchHoldingRegisters m resp
        = .error (.unitAddressMismatch m.unitAddress (resp.getD 0 0))) ∧
    (∀ (m : ModbusRtu) (resp : List Nat), 5 ≤ resp.length →
      resp.getD (resp.length - 2) 0 + 256 * resp.getD (resp.length - 1) 0
        = crc16 (bodyOf resp) →
      resp.getD 0 0 = m.unitAddress → resp.getD 1 0 = 0x83 →
      fetchHoldingRegisters m resp
        = .error (.modbusException (resp.getD 2 0) (modbusErrorMessage (resp.getD 2 0)))) :=
  ⟨fun m resp s hread hne => fetch_of_bad_crc m resp s hread hne,
   fun m resp hlen hcrc hne => fetch_of_addr_mismatch m resp hlen hcrc hne,
   fun m resp hlen hcrc haddr hfc =>
     fetch_of_exception m resp (resp.getD 2 0) hlen hcrc haddr hfc rfl⟩

/-- Witness for C4: an exception-looking frame with a bad checksum is reported
as `CrcMismatch`; a well-checksummed frame carrying the exception function
code `0x83` but the wrong address is reported as `UnitAddressMismatch`; the
same frame with the matching address is reported as `ModbusException`. -/
theorem validation_order_contract_witness :
    fetchHoldingRegisters ⟨1⟩ [1, 131, 1, 0, 0] = .error .crcMismatch ∧
    fetchHoldingRegisters ⟨9⟩ [1, 131, 0, 65, 48]
      = .error (.unitAddressMismatch 9 1) ∧
    fetchHoldingRegisters ⟨1⟩ [1, 131, 0, 65, 48]
      = .error (.modbusException 0 (modbusErrorMessage 0)) :=
  ⟨validation_order_contract.1 ⟨1⟩ [1, 131, 1, 0, 0] 0 (by rfl) (by decide),
   validation_order_contract.2.1 ⟨9⟩ [1, 131, 0, 65, 48] (by decide) (by decide) (by decide),
   validation_order_contract.2.2 ⟨1⟩ [1, 131, 0, 65, 48] (by decide) (by decide) (by decide)
     (by decide)⟩

lemma modbusErrorMessage_table (k : Nat) (hk : k < 8) :
    modbusErrorMessage k = modbusErrorMessages.getD k "" := by
  interval_cases k <;> rfl

lemma modbusErrorMessage_unknown (k : Nat) (hk : 8 ≤ k) :
    modbusErrorMessage k = "Unknown error" := by
  unfold modbusErrorMessage
  have hnone : modbusErrorMessages.get? k = none := by
    rw [List.get?_eq_none]
    simpa [modbusErrorMessages] using hk
  rw [hnone]

/-- C5: a well-checksummed, address-matching response of length at least 5
whose function byte is `0x83` fails with `ModbusException` carrying the
exception code from byte 2; the message is the fixed table entry for codes
0–7 and "Unknown error" for any code 8 or above. -/
theorem exception_response_decoded (m : ModbusRtu) (resp : List Nat) (e : Nat)
    (hlen : 5 ≤ resp.length)
    (hcrc : resp.getD (resp.length - 2) 0 + 256 * resp.getD (resp.length - 1) 0
      = crc16 (bodyOf resp))
    (haddr : resp.getD 0 0 = m.unitAddress)
    (hfc : resp.getD 1 0 = 0x83)
    (hexc : resp.getD 2 0 = e) :
    fetchHoldingRegisters m resp = .error (.modbusException e (modbusErrorMessage e)) ∧
    (∀ k, k < 8 → modbusErrorMessage k = modbusErrorMessages.getD k "") ∧
    (∀ k, 8 ≤ k → modbusErrorMessage k = "Unknown error") :=
  ⟨fetch_of_exception m resp e hlen hcrc haddr hfc hexc,
   fun k hk => modbusErrorMessage_table k hk,
   fun k hk => modbusErrorMessage_unknown k hk⟩

/-- Witness for C5 at a concrete exception response with code 8. -/
theorem exception_response_decoded_witness :
    fetchHoldingRegisters ⟨1⟩ [1, 131, 8, 64, 246]
      = .error (.modbusException 8 (modbusErrorMessage 8)) ∧
    (∀ k, k < 8 → modbusErrorMessage k = modbusErrorMessages.getD k "") ∧
    (∀ k, 8 ≤ k → modbusErrorMessage k = "Unknown error") :=
  exception_response_decoded ⟨1⟩ [1, 131, 8, 64, 246] 8 (by decide) (by decide)
    (by decide) (by decide) (by decide)

lemma requestHoldingRegisters_eq (m : ModbusRtu) (a b : Nat)
    (hu : m.unitAddress ≤ 255) (ha : a ≤ 65535) (hab : a ≤ b)
    (hcount : b - a + 1 ≤ 65535) :
    requestHoldingRegisters m a b =
      some ([m.unitAddress, 3, a / 256, a % 256, (b - a + 1) / 256, (b - a + 1) % 256]
        ++ [crc16 [m.unitAddress, 3, a / 256, a % 256,
              (b - a + 1) / 256, (b - a + 1) % 256] % 256,
            crc16 [m.unitAddress, 3, a / 256, a % 256,
              (b - a + 1) / 256, (b - a + 1) % 256] / 256]) := by
  have hc1 : (0 : Int) ≤ (b : Int) - (a : Int) + 1 := by omega
  have hc2 : (b : Int) - (a : Int) + 1 ≤ 65535 := by omega
  have hc3 : ((b : Int) - (a : Int) + 1).toNat = b - a + 1 := by omega
  have hbytes : ∀ x ∈ [m.unitAddress, 3, a / 256, a % 256,
      (b - a + 1) / 256, (b - a + 1) % 256], x < 65536 := by
    intro x hx
    simp only [List.mem_cons, List.not_mem_nil, or_false] at hx
    rcases hx with h | h | h | h | h | h <;> omega
  have hcrc : crc16 [m.unitAddress, 3, a / 256, a % 256,
      (b - a + 1) / 256, (b - a + 1) % 256] ≤ 65535 := by
    have := crc16_lt _ hbytes
    omega
  have hbody : bodyOf [m.unitAddress, 3, a / 256, a % 256,
        (b - a + 1) / 256, (b - a + 1) % 256, 0, 0]
      = [m.unitAddress, 3, a / 256, a % 256, (b - a + 1) / 256, (b - a + 1) % 256] := rfl
  unfold requestHoldingRegisters writeUInt8b writeUInt16BEb writeUInt16LEb
  dsimp only
  rw [if_pos hu, if_pos (by norm_num : (3 : Nat) ≤ 255)]
  rw [if_pos (⟨by omega, by omega⟩ : (0 : Int) ≤ (a : Int) ∧ (a : Int) ≤ 65535)]
  rw [if_pos ⟨hc1, hc2⟩]
  simp only [Bind.bind, Option.bind, Int.toNat_natCast, hc3,
    List.cons_append, List.nil_append]
  rw [hbody]
  rw [if_pos (⟨by omega, by omega⟩ : (0 : Int) ≤ (crc16 [m.unitAddress, 3, a / 256, a % 256,
    (b - a + 1) / 256, (b - a + 1) % 256] : Int)
    ∧ (crc16 [m.unitAddress, 3, a / 256, a % 256,
        (b - a + 1) / 256, (b - a + 1) % 256] : Int) ≤ 65535)]
  simp

/-- C2: for 16-bit register addresses `a ≤ b` whose implied register count
`b - a + 1` fits the 16-bit count field, the request frame has exactly 8
bytes: configured unit address, `0x03`, `a` big-endian, the count big-endian,
and the CRC of the first six bytes little-endian. (At `a = 0`, `b = 65535`
the count overflows the field and the builder throws instead — see the
counterexample.) -/
theorem request_frame_wellformed (m : ModbusRtu) (a b : Nat)
    (hu : m.unitAddress ≤ 255) (ha : a ≤ 65535) (hb : b ≤ 65535) (hab : a ≤ b)
    (hcount : b - a + 1 ≤ 65535) :
    ∃ frame, requestHoldingRegisters m a b = some frame ∧ frame.length = 8 ∧
      frame.getD 0 0 = m.unitAddress ∧ frame.getD 1 0 = 3 ∧
      256 * frame.getD 2 0 + frame.getD 3 0 = a ∧
      256 * frame.getD 4 0 + frame.getD 5 0 = b - a + 1 ∧
      frame.getD 6 0 + 256 * frame.getD 7 0 = crc16 (frame.take 6) := by
  refine ⟨_, requestHoldingRegisters_eq m a b hu ha hab hcount, ?_⟩
  have hcrc : crc16 [m.unitAddress, 3, a / 256, a % 256,
      (b - a + 1) / 256, (b - a + 1) % 256] ≤ 65535 := by
    have hbytes : ∀ x ∈ [m.unitAddress, 3, a / 256, a % 256,
        (b - a + 1) / 256, (b - a + 1) % 256], x < 65536 := by
      intro x hx
      simp only [List.mem_cons, List.not_mem_nil, or_false] at hx
      rcases hx with h | h | h | h | h | h <;> omega
    have := crc16_lt _ hbytes
    omega
  refine ⟨rfl, rfl, rfl, ?_, ?_, ?_⟩ <;> simp <;> omega

/-- Counterexample to C2 as stated: at `a = 0`, `b = 65535` the register count
is 65536, `writeUInt16BE` throws `ERR_OUT_OF_RANGE`, and no frame is
returned at all. -/
theorem request_frame_wellformed_cex :
    requestHoldingRegisters ⟨17⟩ 0 65535 = none := by rfl

/-- Witness for C2 at the documented request `(1, 0, 9)`. -/
theorem request_frame_wellformed_witness :
    ∃ frame, requestHoldingRegisters ⟨1⟩ 0 9 = some frame ∧ frame.length = 8 ∧
      frame.getD 0 0 = (ModbusRtu.mk 1).unitAddress ∧ frame.getD 1 0 = 3 ∧
      256 * frame.getD 2 0 + frame.getD 3 0 = 0 ∧
      256 * frame.getD 4 0 + frame.getD 5 0 = 9 - 0 + 1 ∧
      frame.getD 6 0 + 256 * frame.getD 7 0 = crc16 (frame.take 6) :=
  request_frame_wellformed ⟨1⟩ 0 9 (by decide) (by decide) (by decide) (by decide)
    (by decide)

/-- C7 (amended): the builder accepts every pair `a ≤ b` of 16-bit addresses
whose register count `b - a + 1` is at most 65535 — in particular counts 1,
125 and 126 all encode — but the single pair `(0, 65535)`, whose count 65536
overflows the 16-bit count field, throws. -/
theorem request_no_error_paths (m : ModbusRtu) (a b : Nat)
    (hu : m.unitAddress ≤ 255) (ha : a ≤ 65535) (hb : b ≤ 65535) (hab : a ≤ b)
    (hcount : b - a + 1 ≤ 65535) :
    (requestHoldingRegisters m a b).isSome := by
  rw [requestHoldingRegisters_eq m a b hu ha hab hcount]
  rfl

/-- Counterexample to C7 as stated ("no error paths" for all 16-bit pairs):
the register count 65536 cannot be encoded and the builder throws. -/
theorem request_no_error_paths_cex :
    requestHoldingRegisters ⟨1⟩ 0 65535 = none := by rfl

/-- Witness for C7 at register counts 1, 125 and 126. -/
theorem request_no_error_paths_witness :
    (requestHoldingRegisters ⟨1⟩ 0 0).isSome ∧
    (requestHoldingRegisters ⟨1⟩ 0 124).isSome ∧
    (requestHoldingRegisters ⟨1⟩ 0 125).isSome :=
  ⟨request_no_error_paths ⟨1⟩ 0 0 (by decide) (by decide) (by decide) (by decide) (by decide),
   request_no_error_paths ⟨1⟩ 0 124 (by decide) (by decide) (by decide) (by decide) (by decide),
   request_no_error_paths ⟨1⟩ 0 125 (by decide) (by decide) (by decide) (by decide) (by decide)⟩

/-- Big-endian wire encoding of a register list: two bytes per register,
high byte first. -/
def regBytesBE : List Nat → List Nat
  | [] => []
  | r :: rest => r / 256 :: r % 256 :: regBytesBE rest

/-- A response frame `[u, 0x03, k, registers…, crcLo, crcHi]` whose trailing
checksum is correct by construction; `k` is the byte-count field. -/
def mkResponse (u k : Nat) (regs : List Nat) : List Nat :=
  (u :: 3 :: k :: regBytesBE regs) ++
    [crc16 (u :: 3 :: k :: regBytesBE regs) % 256,
     crc16 (u :: 3 :: k :: regBytesBE regs) / 256]

lemma regBytesBE_length : ∀ regs : List Nat, (regBytesBE regs).length = 2 * regs.length
  | [] => rfl
  | _ :: rest => by
    simp [regBytesBE, regBytesBE_length rest]
    omega

lemma regBytesBE_lt : ∀ regs : List Nat, (∀ r ∈ regs, r < 65536) →
    ∀ x ∈ regBytesBE regs, x < 256
  | [], _, x, hx => by simp [regBytesBE] at hx
  | r :: rest, hregs, x, hx => by
    have hr : r < 65536 := hregs r (List.mem_cons_self r rest)
    simp only [regBytesBE, List.mem_cons] at hx
    rcases hx with h | h | h
    · omega
    · omega
    · exact regBytesBE_lt rest (fun y hy => hregs y (List.mem_cons_of_mem r hy)) x h

lemma regBytesBE_get : ∀ (regs : List Nat) (j : Nat), j < regs.length →
    (regBytesBE regs)[2 * j]? = some (regs.getD j 0 / 256) ∧
    (regBytesBE regs)[2 * j + 1]? = some (regs.getD j 0 % 256)
  | [], j, hj => by simp at hj
  | r :: rest, 0, _ => by simp [regBytesBE]
  | r :: rest, j + 1, hj => by
    have ih := regBytesBE_get rest j (by simpa using hj)
    have e1 : 2 * (j + 1) = 2 * j + 1 + 1 := by ring
    have e2 : 2 * (j + 1) + 1 = 2 * j + 1 + 1 + 1 := by ring
    constructor
    · rw [e1]
      simpa [regBytesBE] using ih.1
    · rw [e2]
      simpa [regBytesBE] using ih.2

lemma mkResponse_length (u k : Nat) (regs : List Nat) :
    (mkResponse u k regs).length = 2 * regs.length + 5 := by
  simp [mkResponse, regBytesBE_length]

lemma mkResponse_body (u k : Nat) (regs : List Nat) :
    bodyOf (mkResponse u k regs) = u :: 3 :: k :: regBytesBE regs := by
  unfold bodyOf
  rw [mkResponse_length]
  unfold mkResponse
  rw [show 2 * regs.length + 5 - 2 = (u :: 3 :: k :: regBytesBE regs).length from by
    simp [regBytesBE_length]]
  rw [List.take_append_of_le_length (Nat.le_refl _), List.take_length]

lemma mkResponse_crc_lt (u k : Nat) (regs : List Nat) (hu : u < 256) (hk : k < 65536)
    (hregs : ∀ r ∈ regs, r < 65536) :
    crc16 (u :: 3 :: k :: regBytesBE regs) < 65536 := by
  apply crc16_lt
  intro x hx
  simp only [List.mem_cons] at hx
  rcases hx with h | h | h | h
  · omega
  · omega
  · omega
  · have := regBytesBE_lt regs hregs x h
    omega

lemma mkResponse_stored (u k : Nat) (regs : List Nat) :
    (mkResponse u k regs).getD ((mkResponse u k regs).length - 2) 0
      = crc16 (u :: 3 :: k :: regBytesBE regs) % 256 ∧
    (mkResponse u k regs).getD ((mkResponse u k regs).length - 1) 0
      = crc16 (u :: 3 :: k :: regBytesBE regs) / 256 := by
  rw [mkResponse_length]
  unfold mkResponse
  have hblen : (u :: 3 :: k :: regBytesBE regs).length = 2 * regs.length + 3 := by
    simp [regBytesBE_length]
  constructor
  · simp only [List.getD_eq_getElem?_getD]
    rw [show 2 * regs.length + 5 - 2 = (u :: 3 :: k :: regBytesBE regs).length + 0 from by omega,
      List.getElem?_append_right (by omega)]
    simp
  · simp only [List.getD_eq_getElem?_getD]
    rw [show 2 * regs.length + 5 - 1 = (u :: 3 :: k :: regBytesBE regs).length + 1 from by omega,
      List.getElem?_append_right (by omega), hblen]
    rw [show 2 * regs.length + 3 + 1 - (2 * regs.length + 3) = 1 from by omega]
    simp

lemma mkResponse_head (u k : Nat) (regs : List Nat) :
    (mkResponse u k regs).getD 0 0 = u ∧ (mkResponse u k regs).getD 1 0 = 3 ∧
    (mkResponse u k regs).getD 2 0 = k := by
  unfold mkResponse
  refine ⟨rfl, rfl, rfl⟩

lemma mkResponse_validate (m : ModbusRtu) (u k : Nat) (regs : List Nat)
    (hu : u < 256) (hk : k < 65536) (hregs : ∀ r ∈ regs, r < 65536)
    (haddr : u = m.unitAddress) :
    validateResponse m 0x03 (mkResponse u k regs) = .ok () := by
  have hlen : 2 ≤ (mkResponse u k regs).length := by rw [mkResponse_length]; omega
  have hcrc := (mkResponse_stored u k regs).1
  have hcrc' := (mkResponse_stored u k regs).2
  have hc16 := mkResponse_crc_lt u k regs hu hk hregs
  unfold validateResponse
  rw [readUInt16LE_last _ hlen, hcrc, hcrc', mkResponse_body,
    readUInt8_ok _ 0 (by omega), readUInt8_ok _ 1 (by omega),
    (mkResponse_head u k regs).1, (mkResponse_head u k regs).2.1, haddr]
  have hv : crc16 (m.unitAddress :: 3 :: k :: regBytesBE regs) % 256
      + 256 * (crc16 (m.unitAddress :: 3 :: k :: regBytesBE regs) / 256)
      = crc16 (m.unitAddress :: 3 :: k :: regBytesBE regs) := by
    rw [haddr] at hc16
    omega
  simp [hv]

lemma fetchLoop_ok : ∀ (vals : List Nat) (frame : List Nat) (L k : Nat) (acc : List Nat),
    (∀ j, j < vals.length → readUInt16BEx frame (2 * (k + j) + 3) = .ok (vals.getD j 0)) →
    (∀ j, j < vals.length → 2 * (k + j) < L) →
    L ≤ 2 * (k + vals.length) →
    fetchLoop frame L (2 * k) acc = .ok (acc ++ vals)
  | [], frame, L, k, acc, _, _, hL => by
    have hL' : L ≤ 2 * k := by simpa using hL
    unfold fetchLoop
    rw [dif_neg (by omega)]
    simp
  | v :: rest, frame, L, k, acc, hread, hbound, hL => by
    unfold fetchLoop
    rw [dif_pos (by have := hbound 0 (by simp); omega)]
    have h0 := hread 0 (by simp)
    rw [show 2 * k + 3 = 2 * (k + 0) + 3 from by ring, h0]
    show fetchLoop frame L (2 * k + 2) (acc ++ [(v :: rest).getD 0 0]) = .ok (acc ++ v :: rest)
    rw [show 2 * k + 2 = 2 * (k + 1) from by ring]
    rw [fetchLoop_ok rest frame L (k + 1) (acc ++ [(v :: rest).getD 0 0])
      (fun j hj => by
        have hr := hread (j + 1) (by simpa using Nat.succ_lt_succ hj)
        rw [show 2 * (k + 1 + j) + 3 = 2 * (k + (j + 1)) + 3 from by ring]
        simpa using hr)
      (fun j hj => by
        have hb := hbound (j + 1) (by simpa using Nat.succ_lt_succ hj)
        omega)
      (by simp only [List.length_cons] at hL; omega)]
    simp

lemma fetchLoop_err (e : ModbusError) :
    ∀ (vals : List Nat) (frame : List Nat) (L k : Nat) (acc : List Nat),
    (∀ j, j < vals.length → readUInt16BEx frame (2 * (k + j) + 3) = .ok (vals.getD j 0)) →
    (∀ j, j ≤ vals.length → 2 * (k + j) < L) →
    readUInt16BEx frame (2 * (k + vals.length) + 3) = .error e →
    fetchLoop frame L (2 * k) acc = .error e
  | [], frame, L, k, acc, _, hbound, herr => by
    have hk0 : 2 * k < L := by simpa using hbound 0 (Nat.zero_le _)
    have herr' : readUInt16BEx frame (2 * k + 3) = .error e := by simpa using herr
    unfold fetchLoop
    rw [dif_pos hk0, herr']
  | v :: rest, frame, L, k, acc, hread, hbound, herr => by
    unfold fetchLoop
    rw [dif_pos (by have := hbound 0 (by omega); omega)]
    have h0 := hread 0 (by simp)
    rw [show 2 * k + 3 = 2 * (k + 0) + 3 from by ring, h0]
    show fetchLoop frame L (2 * k + 2) (acc ++ [(v :: rest).getD 0 0]) = .error e
    rw [show 2 * k + 2 = 2 * (k + 1) from by ring]
    exact fetchLoop_err e rest frame L (k + 1) _
      (fun j hj => by
        have hr := hread (j + 1) (by simpa using Nat.succ_lt_succ hj)
        rw [show 2 * (k + 1 + j) + 3 = 2 * (k + (j + 1)) + 3 from by ring]
        simpa using hr)
      (fun j hj => by
        have hb := hbound (j + 1) (by simpa using Nat.succ_le_succ hj)
        omega)
      (by
        rw [show 2 * (k + 1 + rest.length) + 3
          = 2 * (k + (v :: rest).length) + 3 from by simp; ring]
        exact herr)

lemma mkResponse_read_reg (u k : Nat) (regs : List Nat) (j : Nat) (hj : j < regs.length)
    (hr : regs.getD j 0 < 65536) :
    readUInt16BEx (mkResponse u k regs) (2 * j + 3) = .ok (regs.getD j 0) := by
  unfold readUInt16BEx
  rw [if_pos (by rw [mkResponse_length]; omega)]
  unfold mkResponse
  have hget := regBytesBE_get regs j hj
  have hlt1 : 2 * j < (regBytesBE regs).length := by rw [regBytesBE_length]; omega
  have hlt2 : 2 * j + 1 < (regBytesBE regs).length := by rw [regBytesBE_length]; omega
  have e1 : ((u :: 3 :: k :: regBytesBE regs) ++
      [crc16 (u :: 3 :: k :: regBytesBE regs) % 256,
       crc16 (u :: 3 :: k :: regBytesBE regs) / 256]).getD (2 * j + 3) 0
      = regs.getD j 0 / 256 := by
    simp only [List.getD_eq_getElem?_getD, List.cons_append]
    rw [show 2 * j + 3 = (2 * j) + 1 + 1 + 1 from by ring]
    rw [List.getElem?_cons_succ, List.getElem?_cons_succ, List.getElem?_cons_succ,
      List.getElem?_append_left hlt1, hget.1]
    simp
  have e2 : ((u :: 3 :: k :: regBytesBE regs) ++
      [crc16 (u :: 3 :: k :: regBytesBE regs) % 256,
       crc16 (u :: 3 :: k :: regBytesBE regs) / 256]).getD (2 * j + 3 + 1) 0
      = regs.getD j 0 % 256 := by
    simp only [List.getD_eq_getElem?_getD, List.cons_append]
    rw [show 2 * j + 3 + 1 = (2 * j + 1) + 1 + 1 + 1 from by ring]
    rw [List.getElem?_cons_succ, List.getElem?_cons_succ, List.getElem?_cons_succ,
      List.getElem?_append_left hlt2, hget.2]
    simp
  rw [e1, e2]
  congr 1
  omega

lemma mkResponse_read_crc (u k : Nat) (regs : List Nat) :
    readUInt16BEx (mkResponse u k regs) (2 * regs.length + 3)
      = .ok (256 * (crc16 (u :: 3 :: k :: regBytesBE regs) % 256)
          + crc16 (u :: 3 :: k :: regBytesBE regs) / 256) := by
  unfold readUInt16BEx
  rw [if_pos (by rw [mkResponse_length])]
  have h1 := (mkResponse_stored u k regs).1
  have h2 := (mkResponse_stored u k regs).2
  rw [mkResponse_length] at h1 h2
  rw [show 2 * regs.length + 5 - 2 = 2 * regs.length + 3 from by omega] at h1
  rw [show 2 * regs.length + 5 - 1 = 2 * regs.length + 3 + 1 from by omega] at h2
  rw [h1, h2]

lemma mkResponse_read_past (u k : Nat) (regs : List Nat) :
    readUInt16BEx (mkResponse u k regs) (2 * regs.length + 5) = .error .rangeError := by
  unfold readUInt16BEx
  rw [if_neg (by rw [mkResponse_length]; omega)]

lemma mkResponse_fetch (m : ModbusRtu) (u k : Nat) (regs : List Nat)
    (hu : u < 256) (hk : k < 65536) (hregs : ∀ r ∈ regs, r < 65536)
    (haddr : u = m.unitAddress) :
    fetchHoldingRegisters m (mkResponse u k regs)
      = fetchLoop (mkResponse u k regs) k 0 [] := by
  unfold fetchHoldingRegisters
  rw [mkResponse_validate m u k regs hu hk hregs haddr,
    readUInt8_ok _ 2 (by rw [mkResponse_length]; omega),
    (mkResponse_head u k regs).2.2]

lemma regs_getD_lt (regs : List Nat) (hregs : ∀ r ∈ regs, r < 65536) (j : Nat)
    (hj : j < regs.length) : regs.getD j 0 < 65536 := by
  rw [List.getD_eq_getElem regs 0 hj]
  exact hregs _ (List.getElem_mem hj)

/-- C3: a well-formed response `[u, 0x03, 2N, registers…, crc]` whose unit
address matches the codec decodes to exactly its `N` register values in wire
order. -/
theorem wellformed_response_roundtrip (u : Nat) (regs : List Nat) (hu : u < 256)
    (hregs : ∀ r ∈ regs, r < 65536) (hN : regs.length ≤ 127) :
    fetchHoldingRegisters ⟨u⟩ (mkResponse u (2 * regs.length) regs) = .ok regs := by
  rw [mkResponse_fetch ⟨u⟩ u (2 * regs.length) regs hu (by omega) hregs rfl]
  have h := fetchLoop_ok regs (mkResponse u (2 * regs.length) regs) (2 * regs.length) 0 []
    (fun j hj => by
      rw [show 2 * (0 + j) + 3 = 2 * j + 3 from by ring]
      exact mkResponse_read_reg u (2 * regs.length) regs j hj (regs_getD_lt regs hregs j hj))
    (fun j hj => by omega)
    (by omega)
  simpa using h

/-- Witness for C3 at a two-register response. -/
theorem wellformed_response_roundtrip_witness :
    fetchHoldingRegisters ⟨1⟩ (mkResponse 1 4 [258, 772]) = .ok [258, 772] :=
  wellformed_response_roundtrip 1 [258, 772] (by decide) (by decide) (by decide)

lemma mkResponse_read_vals (u k : Nat) (regs : List Nat)
    (hregs : ∀ r ∈ regs, r < 65536) :
    ∀ j, j < (regs ++ [256 * (crc16 (u :: 3 :: k :: regBytesBE regs) % 256)
        + crc16 (u :: 3 :: k :: regBytesBE regs) / 256]).length →
      readUInt16BEx (mkResponse u k regs) (2 * (0 + j) + 3)
        = .ok ((regs ++ [256 * (crc16 (u :: 3 :: k :: regBytesBE regs) % 256)
            + crc16 (u :: 3 :: k :: regBytesBE regs) / 256]).getD j 0) := by
  intro j hj
  simp only [List.length_append, List.length_cons, List.length_nil] at hj
  rw [show 2 * (0 + j) + 3 = 2 * j + 3 from by ring]
  by_cases hcase : j < regs.length
  · rw [mkResponse_read_reg u k regs j hcase (regs_getD_lt regs hregs j hcase)]
    congr 1
    simp only [List.getD_eq_getElem?_getD]
    rw [List.getElem?_append_left hcase]
  · have hjeq : j = regs.length := by omega
    subst hjeq
    rw [mkResponse_read_crc]
    congr 1
    simp only [List.getD_eq_getElem?_getD]
    rw [List.getElem?_append_right (Nat.le_refl _)]
    simp

/-- C8: the byte-count field is never checked against the frame length — with
a padded byte count `2N + 2` the two checksum bytes are silently decoded as an
extra register, and with byte count `2N + 4` the decode loop reads past the
end of the buffer and fails with the Node-level `RangeError`, which is none of
the four taxonomy errors. -/
theorem byte_count_not_validated :
    (∀ (u : Nat) (regs : List Nat), u < 256 → (∀ r ∈ regs, r < 65536) →
      regs.length ≤ 126 →
      fetchHoldingRegisters ⟨u⟩ (mkResponse u (2 * regs.length + 2) regs)
        = .ok (regs ++ [256 * (crc16 (u :: 3 :: (2 * regs.length + 2) :: regBytesBE regs) % 256)
            + crc16 (u :: 3 :: (2 * regs.length + 2) :: regBytesBE regs) / 256])) ∧
    (∀ (u : Nat) (regs : List Nat), u < 256 → (∀ r ∈ regs, r < 65536) →
      regs.length ≤ 125 →
      fetchHoldingRegisters ⟨u⟩ (mkResponse u (2 * regs.length + 4) regs)
        = .error .rangeError) := by
  constructor
  · intro u regs hu hregs hN
    rw [mkResponse_fetch ⟨u⟩ u (2 * regs.length + 2) regs hu (by omega) hregs rfl]
    have h := fetchLoop_ok
      (regs ++ [256 * (crc16 (u :: 3 :: (2 * regs.length + 2) :: regBytesBE regs) % 256)
        + crc16 (u :: 3 :: (2 * regs.length + 2) :: regBytesBE regs) / 256])
      (mkResponse u (2 * regs.length + 2) regs) (2 * regs.length + 2) 0 []
      (mkResponse_read_vals u (2 * regs.length + 2) regs hregs)
      (fun j hj => by
        simp only [List.length_append, List.length_cons, List.length_nil] at hj
        omega)
      (by
        simp only [List.length_append, List.length_cons, List.length_nil]
        omega)
    simpa using h
  · intro u regs hu hregs hN
    rw [mkResponse_fetch ⟨u⟩ u (2 * regs.length + 4) regs hu (by omega) hregs rfl]
    have h := fetchLoop_err .rangeError
      (regs ++ [256 * (crc16 (u :: 3 :: (2 * regs.length + 4) :: regBytesBE regs) % 256)
        + crc16 (u :: 3 :: (2 * regs.length + 4) :: regBytesBE regs) / 256])
      (mkResponse u (2 * regs.length + 4) regs) (2 * regs.length + 4) 0 []
      (mkResponse_read_vals u (2 * regs.length + 4) regs hregs)
      (fun j hj => by
        simp only [List.length_append, List.length_cons, List.length_nil] at hj
        omega)
      (by
        rw [show 2 * (0 + (regs
          ++ [256 * (crc16 (u :: 3 :: (2 * regs.length + 4) :: regBytesBE regs) % 256)
            + crc16 (u :: 3 :: (2 * regs.length + 4) :: regBytesBE regs) / 256]).length) + 3
          = 2 * regs.length + 5 from by
            simp only [List.length_append, List.length_cons, List.length_nil]
            omega]
        exact mkResponse_read_past u (2 * regs.length + 4) regs)
    simpa using h

/-- Witness for C8 at a one-register response: with byte count 4 the checksum
bytes come back as a second register; with byte count 6 the loop runs off the
end. -/
theorem byte_count_not_validated_witness :
    fetchHoldingRegisters ⟨1⟩ (mkResponse 1 4 [10])
      = .ok ([10] ++ [256 * (crc16 [1, 3, 4, 0, 10] % 256) + crc16 [1, 3, 4, 0, 10] / 256]) ∧
    fetchHoldingRegisters ⟨1⟩ (mkResponse 1 6 [10]) = .error .rangeError :=
  ⟨byte_count_not_validated.1 1 [10] (by decide) (by decide) (by decide),
   byte_count_not_validated.2 1 [10] (by decide) (by decide) (by decide)⟩

end ModbusRtuVerify
